import Mathlib

/-!
Verification of the data-profiling script: holiday calendar builder
(`nth_weekday_of_month`, `last_weekday_of_month`, `build_us_holidays_for_year`)
and the numeric IQR fence summarizer.

The embedding models Python `datetime.date` as a `(year, month, day)` triple
under the proleptic Gregorian calendar.  The `date` constructor is fallible
(it raises `ValueError` on an out-of-range component, including a year outside
`1..9999`), so construction is `Option`-valued here.  Subtracting a
`timedelta(days=1)` is genuine calendar arithmetic that rolls over month and
year boundaries, modelled by `predD`.  The two source `while` loops are
embedded with explicit fuel; fuel `7` is shown sufficient because every
weekday occurs within any 7 consecutive days.
-/

namespace DataProfiling

/-- A calendar date, modelling Python `datetime.date` (proleptic Gregorian). -/
structure Date where
  year : Nat
  month : Nat
  day : Nat
deriving DecidableEq, Repr

/-- Gregorian leap-year test, as used by `datetime`. -/
def isLeap (y : Nat) : Bool := y % 4 == 0 && (y % 100 != 0 || y % 400 == 0)

/-- Number of days in month `m` of year `y`. -/
def daysInMonth (y m : Nat) : Nat :=
  if m = 2 then (if isLeap y then 29 else 28)
  else if m = 4 ∨ m = 6 ∨ m = 9 ∨ m = 11 then 30
  else 31

/-- Days in year `y` strictly before month `m`. -/
def daysBeforeMonth (y m : Nat) : Nat :=
  (List.range (m - 1)).foldl (fun acc i => acc + daysInMonth y (i + 1)) 0

/-- Rata-die day number: day 1 is 0001-01-01 of the proleptic Gregorian
calendar, matching `datetime.date.toordinal`. -/
def rataDie (y m d : Nat) : Nat :=
  365 * (y - 1) + (y - 1) / 4 - (y - 1) / 100 + (y - 1) / 400 + daysBeforeMonth y m + d

/-- `date.weekday()`: Monday = 0 … Sunday = 6.  0001-01-01 is a Monday. -/
def weekday (d : Date) : Nat := (rataDie d.year d.month d.day + 6) % 7

/-- The Python `date(y, m, d)` constructor: `ValueError` (here `none`) unless
`1 ≤ y ≤ 9999`, `1 ≤ m ≤ 12` and `1 ≤ d ≤ daysInMonth y m`. -/
def mkDate (y m d : Nat) : Option Date :=
  if 1 ≤ y ∧ y ≤ 9999 ∧ 1 ≤ m ∧ m ≤ 12 ∧ 1 ≤ d ∧ d ≤ daysInMonth y m then
    some (⟨y, m, d⟩ : Date)
  else none

/-- The `while d.weekday() != weekday` loop of `nth_weekday_of_month`:
each iteration rebuilds `date(d.year, d.month, d.day + 1)` (same month, so the
constructor itself can fail).  Embedded with fuel; fuel 7 always suffices. -/
def advanceLoop (w : Nat) : Nat → Date → Option Date
  | 0, _ => none
  | fuel + 1, d =>
    if weekday d = w then some d
    else (mkDate d.year d.month (d.day + 1)).bind (advanceLoop w fuel)

/-- The `for _ in range(n-1)` loop of `nth_weekday_of_month`: each pass
rebuilds `date(d.year, d.month, d.day + 7)` — same month, never a rollover,
so the constructor fails when `day + 7` exceeds the month length. -/
def iterAdd7 : Nat → Date → Option Date
  | 0, d => some d
  | k + 1, d => (mkDate d.year d.month (d.day + 7)).bind (iterAdd7 k)

/-- `nth_weekday_of_month(y, m, weekday, n)` from the source: start at the
1st of the month, walk forward to the first matching weekday, then add 7 days
`(n-1)` times. -/
def nth_weekday_of_month (y m w n : Nat) : Option Date :=
  (mkDate y m 1).bind fun d => (advanceLoop w 7 d).bind fun d1 => iterAdd7 (n - 1) d1

/-- `d - timedelta(days=1)`: true calendar predecessor, rolling over month and
year boundaries; `OverflowError` (here `none`) below 0001-01-01. -/
def predD (d : Date) : Option Date :=
  if 1 < d.day then some (⟨d.year, d.month, d.day - 1⟩ : Date)
  else if 1 < d.month then some (⟨d.year, d.month - 1, daysInMonth d.year (d.month - 1)⟩ : Date)
  else if 1 < d.year then some (⟨d.year - 1, 12, 31⟩ : Date)
  else none

/-- The `while last.weekday() != weekday` loop of `last_weekday_of_month`,
stepping back one day at a time with `timedelta` subtraction. -/
def backLoop (w : Nat) : Nat → Date → Option Date
  | 0, _ => none
  | fuel + 1, d =>
    if weekday d = w then some d
    else (predD d).bind (backLoop w fuel)

/-- The starting date of `last_weekday_of_month`: `date(y, 12, 31)` when
`m == 12`, else `date(y, m+1, 1) - timedelta(days=1)`. -/
def lastStart (y m : Nat) : Option Date :=
  if m = 12 then mkDate y 12 31 else (mkDate y (m + 1) 1).bind predD

/-- `last_weekday_of_month(y, m, weekday)` from the source. -/
def last_weekday_of_month (y m w : Nat) : Option Date :=
  (lastStart y m).bind (backLoop w 7)

/-- `build_us_holidays_for_year(y)` from the source: a set of 4 fixed dates
and 6 rule-based dates.  Any `ValueError` raised inside propagates (`none`). -/
def build_us_holidays_for_year (y : Nat) : Option (Finset Date) :=
  (mkDate y 1 1).bind fun ny =>
  (mkDate y 7 4).bind fun ind =>
  (mkDate y 11 11).bind fun vet =>
  (mkDate y 12 25).bind fun chr =>
  (nth_weekday_of_month y 1 0 3).bind fun mlk =>
  (nth_weekday_of_month y 2 0 3).bind fun pres =>
  (last_weekday_of_month y 5 0).bind fun mem =>
  (nth_weekday_of_month y 9 0 1).bind fun lab =>
  (nth_weekday_of_month y 10 0 2).bind fun col =>
  (nth_weekday_of_month y 11 3 4).bind fun thx =>
  some ({ny, ind, vet, chr, mlk, pres, mem, lab, col, thx} : Finset Date)

/-! ## Engineered flags (profiling section of the script)

A row's parsed date value is `Option Date` (`none` = `NaT` after
`pd.to_datetime(..., errors="coerce")`).  The year-keyed holiday calendar is
an abstract finite map `Nat → Option (Finset Date)` (`none` = year absent). -/

/-- The `is_holiday` per-row value: `np.nan` (missing) when the date is
missing, else `True` iff the year is in the calendar map and the date is in
that year's holiday set. -/
def isHolidayFlag (cal : Nat → Option (Finset Date)) (dval : Option Date) : Option Bool :=
  match dval with
  | none => none
  | some d =>
    match cal d.year with
    | some hs => some (decide (d ∈ hs))
    | none => some false

/-- The `is_weekend` per-row value, `df[date_col].dt.weekday >= 5`.  On a
missing date the weekday is `NaN` and the pandas comparison `NaN >= 5`
evaluates to `False`, so the flag is `False`, not missing. -/
def isWeekendFlag (dval : Option Date) : Bool :=
  match dval with
  | none => false
  | some d => decide (5 ≤ weekday d)

/-! ## Numeric summary with IQR fences

Column values are `Option ℚ` (`none` = missing).  The source works in
float64; the embedding uses exact rationals, which agrees with the source on
every ordering and counting property stated below.  `round(x, 2)` is
modelled by `round2` (the tie-breaking rule differs from Python's
round-half-even, and no claim depends on ties). -/

/-- Summary record emitted per numeric column.  `std` holds the sample
variance (the radicand of the source's standard deviation, which is
irrational in general); it is `none` exactly when the source's `std` is NaN,
and the claims below use only its definedness. -/
structure NumericSummary where
  count : Nat
  mean : Option ℚ
  std : Option ℚ
  min : Option ℚ
  q1 : Option ℚ
  median : Option ℚ
  q3 : Option ℚ
  max : Option ℚ
  iqr : Option ℚ
  lower_fence : Option ℚ
  upper_fence : Option ℚ
  outlier_pct : Option ℚ
deriving DecidableEq, Repr

/-- Round to 2 decimal places, modelling Python `round(x, 2)`. -/
def round2 (x : ℚ) : ℚ := ((round (x * 100) : ℤ) : ℚ) / 100

/-- Linear interpolation at fractional position `h` into list `t`:
`t[floor h] + (h - floor h) * (t[ceil h] - t[floor h])`. -/
def interp (t : List ℚ) (h : ℚ) : ℚ :=
  t.getD (⌊h⌋).toNat 0 + (h - ((⌊h⌋ : ℤ) : ℚ)) * (t.getD (⌈h⌉).toNat 0 - t.getD (⌊h⌋).toNat 0)

/-- `Series.quantile(q)` with the default linear interpolation: position
`(n-1)*q` into the ascending sort of the values. -/
def quantileLin (s : List ℚ) (q : ℚ) : ℚ :=
  interp (List.insertionSort (· ≤ ·) s) (((s.length : ℚ) - 1) * q)

/-- Sample variance of `s` (denominator `n - 1`); the source reports its
square root as `std`. -/
def sampleVariance (s : List ℚ) : ℚ :=
  ((s.map (fun x => (x - s.sum / (s.length : ℚ)) ^ 2)).sum) / ((s.length : ℚ) - 1)

/-- The outlier mask `(df[c] < lower) | (df[c] > upper)` applied to one cell:
a missing value compares `False` on both sides. -/
def isOutlier (lower upper : ℚ) : Option ℚ → Bool
  | some x => decide (x < lower) || decide (upper < x)
  | none => false

/-- One iteration of the numeric-summary loop (lines 206-240 of the source):
drop missing values, emit the all-null record when nothing is left, else
compute quartiles, Tukey fences and the outlier percentage over the full
column length. -/
def summarize (col : List (Option ℚ)) : NumericSummary :=
  let s := col.filterMap id
  if s.length = 0 then
    ⟨0, none, none, none, none, none, none, none, none, none, none, none⟩
  else
    let q1 := quantileLin s (1/4)
    let q3 := quantileLin s (3/4)
    let iqr := q3 - q1
    let lower := q1 - 3/2 * iqr
    let upper := q3 + 3/2 * iqr
    ⟨s.length,
     some (round2 (s.sum / (s.length : ℚ))),
     if 2 ≤ s.length then some (sampleVariance s) else none,
     s.min?,
     some q1,
     some (quantileLin s (1/2)),
     some q3,
     s.max?,
     some iqr,
     some lower,
     some upper,
     some (round2 (((col.filter (isOutlier lower upper)).length : ℚ) / (col.length : ℚ) * 100))⟩

/-! ## Calendar lemmas -/

/-- Every month has at least 28 days. -/
lemma le_daysInMonth (y m : Nat) : 28 ≤ daysInMonth y m := by
  unfold daysInMonth
  split
  · split <;> omega
  · split <;> omega

/-- Every month has at most 31 days. -/
lemma daysInMonth_le (y m : Nat) : daysInMonth y m ≤ 31 := by
  unfold daysInMonth
  split
  · split <;> omega
  · split <;> omega

/-- The part of the rata-die number that does not depend on the day. -/
def wbase (y m : Nat) : Nat :=
  365 * (y - 1) + (y - 1) / 4 - (y - 1) / 100 + (y - 1) / 400 + daysBeforeMonth y m + 6

/-- The weekday of day `d` in month `(y, m)` is linear in `d` modulo 7. -/
lemma weekday_mk (y m d : Nat) : weekday ⟨y, m, d⟩ = (wbase y m + d) % 7 := by
  show (rataDie y m d + 6) % 7 = (wbase y m + d) % 7
  unfold rataDie wbase
  omega

lemma mkDate_eq_some {y m d : Nat} (hy1 : 1 ≤ y) (hy2 : y ≤ 9999) (hm1 : 1 ≤ m)
    (hm2 : m ≤ 12) (hd1 : 1 ≤ d) (hd2 : d ≤ daysInMonth y m) :
    mkDate y m d = some ⟨y, m, d⟩ := by
  unfold mkDate
  rw [if_pos ⟨hy1, hy2, hm1, hm2, hd1, hd2⟩]

/-- Any window of 7 consecutive days contains each weekday. -/
lemma exists_weekday_in_window (y m w a : Nat) (hw : w < 7) :
    ∃ j, j < 7 ∧ weekday ⟨y, m, a + j⟩ = w := by
  refine ⟨(w + 7 - (wbase y m + a) % 7) % 7, Nat.mod_lt _ (by omega), ?_⟩
  rw [weekday_mk]
  omega

/-- Any window of 7 consecutive days ending at `a ≥ 7` contains each weekday
when scanned backward. -/
lemma exists_weekday_in_back_window (y m w a : Nat) (hw : w < 7) (ha : 7 ≤ a) :
    ∃ j, j < 7 ∧ weekday ⟨y, m, a - j⟩ = w := by
  refine ⟨((wbase y m + a) % 7 + 7 - w) % 7, Nat.mod_lt _ (by omega), ?_⟩
  rw [weekday_mk]
  omega

/-- The forward `while` loop of `nth_weekday_of_month` stops at the first
day `f ≥ d` whose weekday is `w`, provided such a day lies within the fuel
and within day 28 (so the same-month reconstruction stays valid). -/
lemma advanceLoop_spec (y m w : Nat) (hy1 : 1 ≤ y) (hy2 : y ≤ 9999)
    (hm1 : 1 ≤ m) (hm2 : m ≤ 12) :
    ∀ fuel d, 1 ≤ d → d + fuel ≤ 29 →
    (∃ j, j < fuel ∧ weekday ⟨y, m, d + j⟩ = w) →
    ∃ f, advanceLoop w fuel ⟨y, m, d⟩ = some ⟨y, m, f⟩ ∧ d ≤ f ∧ f < d + fuel ∧
      weekday ⟨y, m, f⟩ = w ∧ ∀ k, d ≤ k → k < f → weekday ⟨y, m, k⟩ ≠ w := by
  intro fuel
  induction fuel with
  | zero => intro d _ _ hex; omega
  | succ fuel ih =>
    intro d hd1 hd2 hex
    by_cases hw : weekday ⟨y, m, d⟩ = w
    · exact ⟨d, by simp [advanceLoop, hw], le_refl d, by omega, hw, by omega⟩
    · obtain ⟨j, hj, hjw⟩ := hex
      have hj0 : j ≠ 0 := by rintro rfl; exact hw (by simpa using hjw)
      have hday : d + 1 ≤ daysInMonth y m := by
        have := le_daysInMonth y m; omega
      have hmk : mkDate y m (d + 1) = some ⟨y, m, d + 1⟩ :=
        mkDate_eq_some hy1 hy2 hm1 hm2 (by omega) hday
      obtain ⟨f, hres, hf1, hf2, hfw, hmin⟩ :=
        ih (d + 1) (by omega) (by omega)
          ⟨j - 1, by omega, by have : d + 1 + (j - 1) = d + j := by omega
                               rw [this]; exact hjw⟩
      refine ⟨f, ?_, by omega, by omega, hfw, ?_⟩
      · simp only [advanceLoop, if_neg hw, hmk, Option.some_bind]
        exact hres
      · intro k hk1 hk2
        rcases Nat.eq_or_lt_of_le hk1 with h | h
        · rw [← h]; exact hw
        · exact hmin k h hk2

/-- The `for` loop of `nth_weekday_of_month` adds `7 * k` days while the
result stays within the month; each same-month reconstruction is valid. -/
lemma iterAdd7_spec (y m : Nat) (hy1 : 1 ≤ y) (hy2 : y ≤ 9999)
    (hm1 : 1 ≤ m) (hm2 : m ≤ 12) :
    ∀ k d, 1 ≤ d → d + 7 * k ≤ daysInMonth y m →
    iterAdd7 k ⟨y, m, d⟩ = some ⟨y, m, d + 7 * k⟩ := by
  intro k
  induction k with
  | zero => intro d _ _; simp [iterAdd7]
  | succ k ih =>
    intro d hd1 hd2
    have hmk : mkDate y m (d + 7) = some ⟨y, m, d + 7⟩ :=
      mkDate_eq_some hy1 hy2 hm1 hm2 (by omega) (by omega)
    simp only [iterAdd7, hmk, Option.some_bind]
    have harith : d + 7 + 7 * k = d + 7 * (k + 1) := by omega
    rw [ih (d + 7) (by omega) (by omega), harith]

/-- Full behaviour of `nth_weekday_of_month` whenever the nth occurrence of
weekday `w` exists in the month (witnessed by any matching day at position
`≥ 1 + 7*(n-1)`). -/
lemma nth_spec (y m w n : Nat) (hy1 : 1 ≤ y) (hy2 : y ≤ 9999) (hm1 : 1 ≤ m)
    (hm2 : m ≤ 12) (hw : w < 7) (hn : 1 ≤ n)
    (hex : ∃ dd, dd ≤ daysInMonth y m ∧ weekday ⟨y, m, dd⟩ = w ∧ 1 + 7 * (n - 1) ≤ dd) :
    ∃ f, nth_weekday_of_month y m w n = some ⟨y, m, f⟩ ∧ weekday ⟨y, m, f⟩ = w ∧
      1 + 7 * (n - 1) ≤ f ∧ f ≤ 7 * n ∧ f ≤ daysInMonth y m := by
  obtain ⟨dd, hdd1, hdd2, hdd3⟩ := hex
  have hmk1 : mkDate y m 1 = some ⟨y, m, 1⟩ :=
    mkDate_eq_some hy1 hy2 hm1 hm2 (by omega) (by have := le_daysInMonth y m; omega)
  obtain ⟨f0, hloop, hf01, hf02, hf0w, _⟩ :=
    advanceLoop_spec y m w hy1 hy2 hm1 hm2 7 1 (by omega) (by omega)
      (by simpa using exists_weekday_in_window y m w 1 hw)
  have hmod : (wbase y m + dd) % 7 = (wbase y m + f0) % 7 := by
    rw [← weekday_mk, ← weekday_mk, hdd2, hf0w]
  have hreach : f0 + 7 * (n - 1) ≤ dd := by omega
  have hiter : iterAdd7 (n - 1) ⟨y, m, f0⟩ = some ⟨y, m, f0 + 7 * (n - 1)⟩ :=
    iterAdd7_spec y m hy1 hy2 hm1 hm2 (n - 1) f0 (by omega) (by omega)
  refine ⟨f0 + 7 * (n - 1), ?_, ?_, by omega, by omega, by omega⟩
  · simp only [nth_weekday_of_month, hmk1, Option.some_bind, hloop, hiter]
  · rw [weekday_mk] at hf0w ⊢
    omega

/-- The backward `while` loop of `last_weekday_of_month` stops at the last
day `f ≤ d` whose weekday is `w`, provided a matching day lies within the
fuel; with `fuel ≤ d` every `timedelta` step stays inside the month. -/
lemma backLoop_spec (y m w : Nat) :
    ∀ fuel d, fuel ≤ d → d ≤ daysInMonth y m →
    (∃ j, j < fuel ∧ weekday ⟨y, m, d - j⟩ = w) →
    ∃ f, backLoop w fuel ⟨y, m, d⟩ = some ⟨y, m, f⟩ ∧ f ≤ d ∧ d < f + fuel ∧
      weekday ⟨y, m, f⟩ = w ∧ ∀ k, f < k → k ≤ d → weekday ⟨y, m, k⟩ ≠ w := by
  intro fuel
  induction fuel with
  | zero => intro d _ _ hex; omega
  | succ fuel ih =>
    intro d hfd hdm hex
    by_cases hw : weekday ⟨y, m, d⟩ = w
    · exact ⟨d, by simp [backLoop, hw], le_refl d, by omega, hw, by omega⟩
    · obtain ⟨j, hj, hjw⟩ := hex
      have hj0 : j ≠ 0 := by rintro rfl; exact hw (by simpa using hjw)
      have hd2 : 2 ≤ d := by omega
      have hpred : predD ⟨y, m, d⟩ = some ⟨y, m, d - 1⟩ := by
        unfold predD
        rw [if_pos (by simpa using hd2)]
      obtain ⟨f, hres, hf1, hf2, hfw, hmax⟩ :=
        ih (d - 1) (by omega) (by omega)
          ⟨j - 1, by omega, by have : d - 1 - (j - 1) = d - j := by omega
                               rw [this]; exact hjw⟩
      refine ⟨f, ?_, by omega, by omega, hfw, ?_⟩
      · simp only [backLoop, if_neg hw, hpred, Option.some_bind]
        exact hres
      · intro k hk1 hk2
        rcases Nat.eq_or_lt_of_le hk2 with h | h
        · rw [h]; exact hw
        · exact hmax k hk1 (by omega)

/-- For a valid year and month, the starting date of
`last_weekday_of_month` is the last day of that month; for December this is
the fixed `date(y, 12, 31)`, otherwise the day before the first of the next
month. -/
lemma lastStart_eq (y m : Nat) (hy1 : 1 ≤ y) (hy2 : y ≤ 9999) (hm1 : 1 ≤ m)
    (hm2 : m ≤ 12) : lastStart y m = some ⟨y, m, daysInMonth y m⟩ := by
  unfold lastStart
  by_cases h12 : m = 12
  · subst h12
    rw [if_pos rfl]
    have h31 : daysInMonth y 12 = 31 := by unfold daysInMonth; norm_num
    rw [h31]
    exact mkDate_eq_some hy1 hy2 (by omega) (by omega) (by omega) (by rw [h31])
  · rw [if_neg h12,
        mkDate_eq_some hy1 hy2 (by omega) (by omega) (by omega)
          (by have := le_daysInMonth y (m + 1); omega),
        Option.some_bind]
    unfold predD
    rw [if_neg (by simp), if_pos (by simpa using by omega : 1 < (⟨y, m + 1, 1⟩ : Date).month)]
    simp

/-- Full behaviour of `last_weekday_of_month` for a valid year, month and
weekday: it returns the last day of the month carrying weekday `w`. -/
lemma last_spec (y m w : Nat) (hy1 : 1 ≤ y) (hy2 : y ≤ 9999) (hm1 : 1 ≤ m)
    (hm2 : m ≤ 12) (hw : w < 7) :
    ∃ f, last_weekday_of_month y m w = some ⟨y, m, f⟩ ∧ f ≤ daysInMonth y m ∧
      daysInMonth y m < f + 7 ∧ weekday ⟨y, m, f⟩ = w ∧
      ∀ k, f < k → k ≤ daysInMonth y m → weekday ⟨y, m, k⟩ ≠ w := by
  have hL := le_daysInMonth y m
  obtain ⟨f, hres, hf1, hf2, hfw, hmax⟩ :=
    backLoop_spec y m w 7 (daysInMonth y m) (by omega) (le_refl _)
      (exists_weekday_in_back_window y m w (daysInMonth y m) hw (by omega))
  refine ⟨f, ?_, hf1, by omega, hfw, hmax⟩
  unfold last_weekday_of_month
  rw [lastStart_eq y m hy1 hy2 hm1 hm2, Option.some_bind]
  exact hres

lemma daysInMonth_one (y : Nat) : daysInMonth y 1 = 31 := by unfold daysInMonth; norm_num

lemma daysInMonth_five (y : Nat) : daysInMonth y 5 = 31 := by unfold daysInMonth; norm_num

lemma daysInMonth_eleven (y : Nat) : daysInMonth y 11 = 30 := by unfold daysInMonth; norm_num

/-- For a valid year, `build_us_holidays_for_year` succeeds and returns the
explicit ten-element set, with each rule-based day in its expected window. -/
lemma build_spec (y : Nat) (hy1 : 1 ≤ y) (hy2 : y ≤ 9999) :
    ∃ fmlk fpres fmem flab fcol fthx : Nat,
      build_us_holidays_for_year y =
        some ({⟨y, 1, 1⟩, ⟨y, 7, 4⟩, ⟨y, 11, 11⟩, ⟨y, 12, 25⟩, ⟨y, 1, fmlk⟩,
               ⟨y, 2, fpres⟩, ⟨y, 5, fmem⟩, ⟨y, 9, flab⟩, ⟨y, 10, fcol⟩,
               ⟨y, 11, fthx⟩} : Finset Date) ∧
      15 ≤ fmlk ∧ fmlk ≤ 21 ∧ 15 ≤ fpres ∧ fpres ≤ 21 ∧ 25 ≤ fmem ∧ fmem ≤ 31 ∧
      1 ≤ flab ∧ flab ≤ 7 ∧ 8 ≤ fcol ∧ fcol ≤ 14 ∧ 22 ≤ fthx ∧ fthx ≤ 28 := by
  have hwin : ∀ m n : Nat, 1 ≤ m → m ≤ 12 → 1 ≤ n → n ≤ 4 →
      ∃ dd, dd ≤ daysInMonth y m ∧ weekday ⟨y, m, dd⟩ = 0 ∧ 1 + 7 * (n - 1) ≤ dd := by
    intro m n hm1 hm2 hn1 hn4
    obtain ⟨j, hj, hjw⟩ := exists_weekday_in_window y m 0 (1 + 7 * (n - 1)) (by omega)
    exact ⟨1 + 7 * (n - 1) + j, by have := le_daysInMonth y m; omega, hjw, by omega⟩
  obtain ⟨fmlk, hmlk, hmlkw, hmlk1, hmlk2, _⟩ :=
    nth_spec y 1 0 3 hy1 hy2 (by omega) (by omega) (by omega) (by omega)
      (hwin 1 3 (by omega) (by omega) (by omega) (by omega))
  obtain ⟨fpres, hpres, hpresw, hpres1, hpres2, _⟩ :=
    nth_spec y 2 0 3 hy1 hy2 (by omega) (by omega) (by omega) (by omega)
      (hwin 2 3 (by omega) (by omega) (by omega) (by omega))
  obtain ⟨fmem, hmem, hmem1, hmem2, _⟩ :=
    last_spec y 5 0 hy1 hy2 (by omega) (by omega) (by omega)
  obtain ⟨flab, hlab, hlabw, hlab1, hlab2, _⟩ :=
    nth_spec y 9 0 1 hy1 hy2 (by omega) (by omega) (by omega) (by omega)
      (hwin 9 1 (by omega) (by omega) (by omega) (by omega))
  obtain ⟨fcol, hcol, hcolw, hcol1, hcol2, _⟩ :=
    nth_spec y 10 0 2 hy1 hy2 (by omega) (by omega) (by omega) (by omega)
      (hwin 10 2 (by omega) (by omega) (by omega) (by omega))
  have hthxex : ∃ dd, dd ≤ daysInMonth y 11 ∧ weekday ⟨y, 11, dd⟩ = 3 ∧ 1 + 7 * (4 - 1) ≤ dd := by
    obtain ⟨j, hj, hjw⟩ := exists_weekday_in_window y 11 3 22 (by omega)
    exact ⟨22 + j, by rw [daysInMonth_eleven]; omega, hjw, by omega⟩
  obtain ⟨fthx, hthx, hthxw, hthx1, hthx2, _⟩ :=
    nth_spec y 11 3 4 hy1 hy2 (by omega) (by omega) (by omega) (by omega) hthxex
  have h28 : ∀ mm : Nat, 28 ≤ daysInMonth y mm := fun mm => le_daysInMonth y mm
  refine ⟨fmlk, fpres, fmem, flab, fcol, fthx, ?_, hmlk1, hmlk2, hpres1, hpres2,
    ?_, hmem1, hlab1, hlab2, hcol1, hcol2, hthx1, hthx2⟩
  · unfold build_us_holidays_for_year
    rw [mkDate_eq_some hy1 hy2 (by omega) (by omega) (by omega) (by have := h28 1; omega),
        Option.some_bind,
        mkDate_eq_some hy1 hy2 (by omega) (by omega) (by omega) (by have := h28 7; omega),
        Option.some_bind,
        mkDate_eq_some hy1 hy2 (by omega) (by omega) (by omega) (by have := h28 11; omega),
        Option.some_bind,
        mkDate_eq_some hy1 hy2 (by omega) (by omega) (by omega) (by have := h28 12; omega),
        Option.some_bind,
        hmlk, Option.some_bind, hpres, Option.some_bind, hmem, Option.some_bind,
        hlab, Option.some_bind, hcol, Option.some_bind, hthx, Option.some_bind]
  · rw [daysInMonth_five] at hmem2; omega

/-- The ten holiday dates are pairwise distinct, so the set has ten
elements. -/
lemma holiday_card (y fmlk fpres fmem flab fcol fthx : Nat)
    (h1 : 15 ≤ fmlk) (h2 : fmlk ≤ 21) (h3 : 15 ≤ fpres) (h4 : fpres ≤ 21)
    (h5 : 25 ≤ fmem) (h6 : fmem ≤ 31) (h7 : 1 ≤ flab) (h8 : flab ≤ 7)
    (h9 : 8 ≤ fcol) (h10 : fcol ≤ 14) (h11 : 22 ≤ fthx) (h12 : fthx ≤ 28) :
    ({⟨y, 1, 1⟩, ⟨y, 7, 4⟩, ⟨y, 11, 11⟩, ⟨y, 12, 25⟩, ⟨y, 1, fmlk⟩,
      ⟨y, 2, fpres⟩, ⟨y, 5, fmem⟩, ⟨y, 9, flab⟩, ⟨y, 10, fcol⟩,
      ⟨y, 11, fthx⟩} : Finset Date).card = 10 := by
  rw [Finset.card_insert_of_not_mem (by simp [Date.mk.injEq]; omega),
      Finset.card_insert_of_not_mem (by simp [Date.mk.injEq]),
      Finset.card_insert_of_not_mem (by simp [Date.mk.injEq]; omega),
      Finset.card_insert_of_not_mem (by simp [Date.mk.injEq]),
      Finset.card_insert_of_not_mem (by simp [Date.mk.injEq]),
      Finset.card_insert_of_not_mem (by simp [Date.mk.injEq]),
      Finset.card_insert_of_not_mem (by simp [Date.mk.injEq]),
      Finset.card_insert_of_not_mem (by simp [Date.mk.injEq]),
      Finset.card_insert_of_not_mem (by simp [Date.mk.injEq]),
      Finset.card_singleton]

/-! ## Claim theorems -/

/-- C1 (counterexample): the forward stepping of `nth_weekday_of_month` does
NOT roll over month boundaries.  Stepping 7 days forward from Jan 29 — the
spec's own example — fails (the same-month `date` reconstruction raises),
and the call asking for the 5th Thursday of January 2024 fails for exactly
that reason instead of reaching February. -/
theorem C1_no_rollover_counterexample :
    iterAdd7 1 (⟨2024, 1, 29⟩ : Date) = none ∧
    nth_weekday_of_month 2024 1 3 5 = none := by
  constructor <;> rfl

/-- C1 (amended): for the occurrence indices the program uses (`1 ≤ n ≤ 4`)
the forward stepping never needs a month rollover: every constructed day is
at most 28, so `nth_weekday_of_month` never fails and stays in month `m`. -/
theorem C1_stepping_stays_in_month (y m w n : Nat) (hy1 : 1 ≤ y) (hy2 : y ≤ 9999)
    (hm1 : 1 ≤ m) (hm2 : m ≤ 12) (hw : w < 7) (hn1 : 1 ≤ n) (hn4 : n ≤ 4) :
    ∃ f, nth_weekday_of_month y m w n = some ⟨y, m, f⟩ ∧ f ≤ 28 := by
  obtain ⟨j, hj, hjw⟩ := exists_weekday_in_window y m w (1 + 7 * (n - 1)) hw
  obtain ⟨f, hres, _, _, hf2, _⟩ :=
    nth_spec y m w n hy1 hy2 hm1 hm2 hw hn1
      ⟨1 + 7 * (n - 1) + j, by have := le_daysInMonth y m; omega, hjw, by omega⟩
  exact ⟨f, hres, by omega⟩

/-- C1 (amended, witness): concrete instance at MLK Day 2024. -/
theorem C1_stepping_stays_in_month_witness :
    ∃ f, nth_weekday_of_month 2024 1 0 3 = some ⟨2024, 1, f⟩ ∧ f ≤ 28 :=
  C1_stepping_stays_in_month 2024 1 0 3 (by decide) (by decide) (by decide)
    (by decide) (by decide) (by decide) (by decide)

/-- C2 (counterexample): `build_us_holidays_for_year` does not return a
10-date set for EVERY integer year: at year 0 the `date` constructor raises
(`datetime` years run 1..9999), so the build fails. -/
theorem C2_year_zero_counterexample : build_us_holidays_for_year 0 = none := by
  rfl

/-- C2 (amended): for every year in `datetime`'s supported range 1..9999,
`build_us_holidays_for_year` returns a set of exactly 10 distinct dates,
each with year `y`; no two of the ten rules collide. -/
theorem C2_ten_distinct_dates (y : Nat) (hy1 : 1 ≤ y) (hy2 : y ≤ 9999) :
    ∃ s, build_us_holidays_for_year y = some s ∧ s.card = 10 ∧
      ∀ d ∈ s, d.year = y := by
  obtain ⟨fmlk, fpres, fmem, flab, fcol, fthx, hbuild, h1, h2, h3, h4, h5, h6,
    h7, h8, h9, h10, h11, h12⟩ := build_spec y hy1 hy2
  refine ⟨_, hbuild, holiday_card y fmlk fpres fmem flab fcol fthx
    h1 h2 h3 h4 h5 h6 h7 h8 h9 h10 h11 h12, ?_⟩
  intro d hd
  simp only [Finset.mem_insert, Finset.mem_singleton] at hd
  rcases hd with rfl | rfl | rfl | rfl | rfl | rfl | rfl | rfl | rfl | rfl <;> rfl

/-- C2 (witness): the amended statement at year 2024. -/
theorem C2_ten_distinct_dates_witness :
    ∃ s, build_us_holidays_for_year 2024 = some s ∧ s.card = 10 ∧
      ∀ d ∈ s, d.year = 2024 :=
  C2_ten_distinct_dates 2024 (by decide) (by decide)

/-- C4: whenever the nth occurrence of weekday `w` exists in month `(y, m)`
(witnessed by a matching day at position `≥ 1 + 7*(n-1)`),
`nth_weekday_of_month` returns a date of that month whose weekday is `w` and
whose day lies in `[1 + 7*(n-1), 7*n]`. -/
theorem C4_nth_weekday_in_range (y m w n : Nat) (hy1 : 1 ≤ y) (hy2 : y ≤ 9999)
    (hm1 : 1 ≤ m) (hm2 : m ≤ 12) (hw : w < 7) (hn : 1 ≤ n)
    (hex : ∃ dd, dd ≤ daysInMonth y m ∧ weekday ⟨y, m, dd⟩ = w ∧ 1 + 7 * (n - 1) ≤ dd) :
    ∃ f, nth_weekday_of_month y m w n = some ⟨y, m, f⟩ ∧ weekday ⟨y, m, f⟩ = w ∧
      1 + 7 * (n - 1) ≤ f ∧ f ≤ 7 * n := by
  obtain ⟨f, hres, hfw, hf1, hf2, _⟩ := nth_spec y m w n hy1 hy2 hm1 hm2 hw hn hex
  exact ⟨f, hres, hfw, hf1, hf2⟩

/-- C4 (witness): the 3rd Monday of January 2024 exists (Jan 15 is a
Monday at position ≥ 15) and the function returns it within `[15, 21]`. -/
theorem C4_nth_weekday_in_range_witness :
    (∃ dd, dd ≤ daysInMonth 2024 1 ∧ weekday ⟨2024, 1, dd⟩ = 0 ∧ 1 + 7 * (3 - 1) ≤ dd) ∧
    (∃ f, nth_weekday_of_month 2024 1 0 3 = some ⟨2024, 1, f⟩ ∧
      weekday ⟨2024, 1, f⟩ = 0 ∧ 1 + 7 * (3 - 1) ≤ f ∧ f ≤ 7 * 3) :=
  ⟨⟨15, by decide, by decide, by decide⟩,
    C4_nth_weekday_in_range 2024 1 0 3 (by decide) (by decide) (by decide)
      (by decide) (by decide) (by decide) ⟨15, by decide, by decide, by decide⟩⟩

/-- C5: `last_weekday_of_month` returns a date of year `y`, month `m` with
weekday `w` such that no later day of the month has weekday `w`; and for
December the search starts from the fixed `date(y, 12, 31)` with no
next-month lookahead. -/
theorem C5_last_weekday (y m w : Nat) (hy1 : 1 ≤ y) (hy2 : y ≤ 9999)
    (hm1 : 1 ≤ m) (hm2 : m ≤ 12) (hw : w < 7) :
    (∃ f, last_weekday_of_month y m w = some ⟨y, m, f⟩ ∧ f ≤ daysInMonth y m ∧
      weekday ⟨y, m, f⟩ = w ∧
      ∀ k, f < k → k ≤ daysInMonth y m → weekday ⟨y, m, k⟩ ≠ w) ∧
    lastStart y 12 = mkDate y 12 31 := by
  obtain ⟨f, hres, hf1, _, hfw, hmax⟩ := last_spec y m w hy1 hy2 hm1 hm2 hw
  exact ⟨⟨f, hres, hf1, hfw, hmax⟩, rfl⟩

/-- C5 (witness): Memorial Day 2024 (last Monday of May). -/
theorem C5_last_weekday_witness :
    (∃ f, last_weekday_of_month 2024 5 0 = some ⟨2024, 5, f⟩ ∧ f ≤ daysInMonth 2024 5 ∧
      weekday ⟨2024, 5, f⟩ = 0 ∧
      ∀ k, f < k → k ≤ daysInMonth 2024 5 → weekday ⟨2024, 5, k⟩ ≠ 0) ∧
    lastStart 2024 12 = mkDate 2024 12 31 :=
  C5_last_weekday 2024 5 0 (by decide) (by decide) (by decide) (by decide) (by decide)

/-- C8: for year 2024 the holiday set contains MLK Day 2024-01-15,
Presidents Day 2024-02-19, Memorial Day 2024-05-27, Labor Day 2024-09-02,
Columbus Day 2024-10-14 and Thanksgiving 2024-11-28. -/
theorem C8_concrete_2024 :
    ∃ s, build_us_holidays_for_year 2024 = some s ∧
      (⟨2024, 1, 15⟩ : Date) ∈ s ∧ (⟨2024, 2, 19⟩ : Date) ∈ s ∧
      (⟨2024, 5, 27⟩ : Date) ∈ s ∧ (⟨2024, 9, 2⟩ : Date) ∈ s ∧
      (⟨2024, 10, 14⟩ : Date) ∈ s ∧ (⟨2024, 11, 28⟩ : Date) ∈ s := by
  refine ⟨({⟨2024, 1, 1⟩, ⟨2024, 7, 4⟩, ⟨2024, 11, 11⟩, ⟨2024, 12, 25⟩,
    ⟨2024, 1, 15⟩, ⟨2024, 2, 19⟩, ⟨2024, 5, 27⟩, ⟨2024, 9, 2⟩,
    ⟨2024, 10, 14⟩, ⟨2024, 11, 28⟩} : Finset Date), ?_, ?_, ?_, ?_, ?_, ?_, ?_⟩ <;>
    decide

/-- C9: the two engineered flags treat a missing date asymmetrically: the
`is_holiday` value is missing, while `is_weekend` is `False` because the
pandas comparison `NaN >= 5` evaluates to `False`. -/
theorem C9_missing_date_asymmetry :
    ∀ cal : Nat → Option (Finset Date),
      isHolidayFlag cal none = none ∧ isWeekendFlag none = false :=
  fun _ => ⟨rfl, rfl⟩

/-! ## Numeric summary lemmas -/

/-- Rows filtered by the outlier mask are exactly the non-missing values
outside the fences: a missing cell never satisfies either comparison. -/
lemma length_filter_isOutlier (col : List (Option ℚ)) (lf uf : ℚ) :
    (col.filter (isOutlier lf uf)).length =
      ((col.filterMap id).filter fun x => decide (x < lf) || decide (uf < x)).length := by
  induction col with
  | nil => rfl
  | cons v t ih =>
    cases v with
    | none => simpa [isOutlier] using ih
    | some x =>
      by_cases hx : x < lf ∨ uf < x
      · simp [isOutlier, List.filter_cons, hx, ih]
      · simp [isOutlier, List.filter_cons, hx, ih]

/-- C6: for an all-missing numeric column the summarizer emits `count = 0`
and every other field null, and (being a total function) raises no error. -/
theorem C6_all_missing_column (col : List (Option ℚ)) (h : ∀ v ∈ col, v = none) :
    summarize col = ⟨0, none, none, none, none, none, none, none, none, none, none, none⟩ := by
  have hs : col.filterMap id = [] := List.filterMap_eq_nil_iff.mpr h
  simp [summarize, hs]

/-- C6 (witness): a concrete two-row all-missing column. -/
theorem C6_all_missing_column_witness :
    (∀ v ∈ ([none, none] : List (Option ℚ)), v = none) ∧
    summarize ([none, none] : List (Option ℚ)) =
      ⟨0, none, none, none, none, none, none, none, none, none, none, none⟩ :=
  ⟨by decide, C6_all_missing_column [none, none] (by decide)⟩

/-- C10: a numeric column with exactly one non-missing value yields
`count = 1`, a null standard deviation (the sample denominator `n - 1` is
zero), and defined mean, min, max, quartiles, fences and outlier
percentage, with no error. -/
theorem C10_single_value_column (col : List (Option ℚ))
    (h : (col.filterMap id).length = 1) :
    (summarize col).count = 1 ∧ (summarize col).std = none ∧
    (summarize col).mean.isSome = true ∧ (summarize col).min.isSome = true ∧
    (summarize col).max.isSome = true ∧ (summarize col).q1.isSome = true ∧
    (summarize col).median.isSome = true ∧ (summarize col).q3.isSome = true ∧
    (summarize col).iqr.isSome = true ∧ (summarize col).lower_fence.isSome = true ∧
    (summarize col).upper_fence.isSome = true ∧
    (summarize col).outlier_pct.isSome = true := by
  obtain ⟨x, hx⟩ := List.length_eq_one.mp h
  simp [summarize, hx]

/-- C10 (witness): a concrete column with one value and one missing cell. -/
theorem C10_single_value_column_witness :
    (([some 5, none] : List (Option ℚ)).filterMap id).length = 1 ∧
    ((summarize ([some 5, none] : List (Option ℚ))).count = 1 ∧
     (summarize ([some 5, none] : List (Option ℚ))).std = none ∧
     (summarize ([some 5, none] : List (Option ℚ))).mean.isSome = true ∧
     (summarize ([some 5, none] : List (Option ℚ))).min.isSome = true ∧
     (summarize ([some 5, none] : List (Option ℚ))).max.isSome = true ∧
     (summarize ([some 5, none] : List (Option ℚ))).q1.isSome = true ∧
     (summarize ([some 5, none] : List (Option ℚ))).median.isSome = true ∧
     (summarize ([some 5, none] : List (Option ℚ))).q3.isSome = true ∧
     (summarize ([some 5, none] : List (Option ℚ))).iqr.isSome = true ∧
     (summarize ([some 5, none] : List (Option ℚ))).lower_fence.isSome = true ∧
     (summarize ([some 5, none] : List (Option ℚ))).upper_fence.isSome = true ∧
     (summarize ([some 5, none] : List (Option ℚ))).outlier_pct.isSome = true) :=
  ⟨by decide, C10_single_value_column [some 5, none] (by decide)⟩

/-- C3: for a column with at least one non-missing value, the emitted
outlier percentage is the count of values strictly outside the fences —
missing rows never count — divided by the FULL original column length,
times 100, rounded to 2 decimals. -/
theorem C3_outlier_pct_full_denominator (col : List (Option ℚ))
    (h : 0 < (col.filterMap id).length) :
    ∃ lf uf, (summarize col).lower_fence = some lf ∧
      (summarize col).upper_fence = some uf ∧
      (summarize col).outlier_pct = some (round2
        ((((col.filterMap id).filter fun x => decide (x < lf) || decide (uf < x)).length : ℚ)
          / (col.length : ℚ) * 100)) := by
  have hne : ¬ (col.filterMap id).length = 0 := by omega
  refine ⟨quantileLin (col.filterMap id) (1/4) -
      3/2 * (quantileLin (col.filterMap id) (3/4) - quantileLin (col.filterMap id) (1/4)),
    quantileLin (col.filterMap id) (3/4) +
      3/2 * (quantileLin (col.filterMap id) (3/4) - quantileLin (col.filterMap id) (1/4)),
    ?_, ?_, ?_⟩ <;>
    simp only [summarize, if_neg hne, ← length_filter_isOutlier]

/-- C3 (witness): the spec's concrete scenario `[1, 2, 3, 4, 100]`. -/
theorem C3_outlier_pct_full_denominator_witness :
    0 < (([some 1, some 2, some 3, some 4, some 100] : List (Option ℚ)).filterMap id).length ∧
    ∃ lf uf,
      (summarize ([some 1, some 2, some 3, some 4, some 100] : List (Option ℚ))).lower_fence = some lf ∧
      (summarize ([some 1, some 2, some 3, some 4, some 100] : List (Option ℚ))).upper_fence = some uf ∧
      (summarize ([some 1, some 2, some 3, some 4, some 100] : List (Option ℚ))).outlier_pct =
        some (round2
          ((((([some 1, some 2, some 3, some 4, some 100] : List (Option ℚ)).filterMap id).filter
              fun x => decide (x < lf) || decide (uf < x)).length : ℚ)
            / (([some 1, some 2, some 3, some 4, some 100] : List (Option ℚ)).length : ℚ) * 100)) :=
  ⟨by decide, C3_outlier_pct_full_denominator [some 1, some 2, some 3, some 4, some 100] (by decide)⟩

/-! ## Quantile monotonicity -/

lemma getD_mono_of_sorted {t : List ℚ} (ht : List.Sorted (· ≤ ·) t) {i j : Nat}
    (hij : i ≤ j) (hj : j < t.length) : t.getD i 0 ≤ t.getD j 0 := by
  rw [List.getD_eq_get t 0 (lt_of_le_of_lt hij hj), List.getD_eq_get t 0 hj]
  exact ht.rel_get_of_le (by simpa using hij)

/-- The interpolated value is at least the lower sample. -/
lemma interp_lower {t : List ℚ} (ht : List.Sorted (· ≤ ·) t) {h : ℚ}
    (h0 : 0 ≤ h) (hub : h ≤ (t.length : ℚ) - 1) :
    t.getD (⌊h⌋).toNat 0 ≤ interp t h := by
  have hceil : ⌈h⌉ ≤ (t.length : ℤ) - 1 := by rw [Int.ceil_le]; push_cast; linarith
  have hjlt : (⌈h⌉).toNat < t.length := by have := Int.ceil_nonneg h0; omega
  have hab : t.getD (⌊h⌋).toNat 0 ≤ t.getD (⌈h⌉).toNat 0 :=
    getD_mono_of_sorted ht
      (by have := Int.floor_le_ceil h; have := Int.floor_nonneg.mpr h0; omega) hjlt
  have hf0 : 0 ≤ h - ((⌊h⌋ : ℤ) : ℚ) := sub_nonneg.mpr (Int.floor_le h)
  unfold interp
  nlinarith [mul_nonneg hf0 (sub_nonneg.mpr hab)]

/-- The interpolated value is at most the upper sample. -/
lemma interp_upper {t : List ℚ} (ht : List.Sorted (· ≤ ·) t) {h : ℚ}
    (h0 : 0 ≤ h) (hub : h ≤ (t.length : ℚ) - 1) :
    interp t h ≤ t.getD (⌈h⌉).toNat 0 := by
  have hceil : ⌈h⌉ ≤ (t.length : ℤ) - 1 := by rw [Int.ceil_le]; push_cast; linarith
  have hjlt : (⌈h⌉).toNat < t.length := by have := Int.ceil_nonneg h0; omega
  have hab : t.getD (⌊h⌋).toNat 0 ≤ t.getD (⌈h⌉).toNat 0 :=
    getD_mono_of_sorted ht
      (by have := Int.floor_le_ceil h; have := Int.floor_nonneg.mpr h0; omega) hjlt
  have hf1 : h - ((⌊h⌋ : ℤ) : ℚ) ≤ 1 := by
    have := Int.lt_floor_add_one h
    push_cast at this ⊢
    linarith
  unfold interp
  nlinarith [mul_nonneg (by linarith : (0:ℚ) ≤ 1 - (h - ((⌊h⌋ : ℤ) : ℚ)))
    (sub_nonneg.mpr hab)]

/-- Linear interpolation into a sorted list is monotone in the position. -/
lemma interp_mono {t : List ℚ} (ht : List.Sorted (· ≤ ·) t) {h h' : ℚ}
    (h0 : 0 ≤ h) (hhh : h ≤ h') (hub : h' ≤ (t.length : ℚ) - 1) :
    interp t h ≤ interp t h' := by
  have h0' : 0 ≤ h' := le_trans h0 hhh
  have hub0 : h ≤ (t.length : ℚ) - 1 := le_trans hhh hub
  have hceil' : ⌈h'⌉ ≤ (t.length : ℤ) - 1 := by rw [Int.ceil_le]; push_cast; linarith
  have hjlt' : (⌈h'⌉).toNat < t.length := by have := Int.ceil_nonneg h0'; omega
  have hilt' : (⌊h'⌋).toNat < t.length := by
    have := Int.floor_le_ceil h'
    have := Int.floor_nonneg.mpr h0'
    omega
  by_cases hc : ⌈h⌉ ≤ ⌊h'⌋
  · have s1 : interp t h ≤ t.getD (⌈h⌉).toNat 0 := interp_upper ht h0 hub0
    have s2 : t.getD (⌈h⌉).toNat 0 ≤ t.getD (⌊h'⌋).toNat 0 :=
      getD_mono_of_sorted ht (by have := Int.ceil_nonneg h0; omega) hilt'
    have s3 : t.getD (⌊h'⌋).toNat 0 ≤ interp t h' := interp_lower ht h0' hub
    linarith
  · push_neg at hc
    have hmono : ⌊h⌋ ≤ ⌊h'⌋ := Int.floor_le_floor hhh
    have hc1 : ⌈h⌉ ≤ ⌊h⌋ + 1 := Int.ceil_le_floor_add_one h
    have hfe : ⌊h⌋ = ⌊h'⌋ := by omega
    have hce : ⌈h⌉ = ⌊h⌋ + 1 := by have := Int.floor_le_ceil h; omega
    rcases (show ⌈h'⌉ = ⌊h'⌋ ∨ ⌈h'⌉ = ⌊h'⌋ + 1 from by
        have := Int.ceil_le_floor_add_one h'
        have := Int.floor_le_ceil h'
        omega) with hq | hq
    · have hint : h' = ((⌊h'⌋ : ℤ) : ℚ) := by
        have hu := Int.le_ceil h'
        rw [hq] at hu
        exact le_antisymm hu (Int.floor_le h')
      have heq : h = h' := by
        refine le_antisymm hhh ?_
        rw [hint, ← hfe]
        exact Int.floor_le h
      rw [heq]
    · have hia : (⌊h⌋).toNat = (⌊h'⌋).toNat := by omega
      have hjb : (⌈h⌉).toNat = (⌈h'⌉).toNat := by omega
      have hab : t.getD (⌊h'⌋).toNat 0 ≤ t.getD (⌈h'⌉).toNat 0 :=
        getD_mono_of_sorted ht (by omega) hjlt'
      unfold interp
      rw [hia, hjb, hfe]
      nlinarith [mul_nonneg (sub_nonneg.mpr hhh) (sub_nonneg.mpr hab)]

/-- `Series.quantile` is monotone in the requested quantile. -/
lemma quantileLin_mono (s : List ℚ) (hs : s ≠ []) {p q : ℚ}
    (hp : 0 ≤ p) (hpq : p ≤ q) (hq : q ≤ 1) :
    quantileLin s p ≤ quantileLin s q := by
  unfold quantileLin
  have hn : 1 ≤ s.length := List.length_pos.mpr hs
  have hn1 : (1 : ℚ) ≤ (s.length : ℚ) := by exact_mod_cast hn
  have hnn : (0 : ℚ) ≤ (s.length : ℚ) - 1 := by linarith
  apply interp_mono (List.sorted_insertionSort _ s)
  · exact mul_nonneg hnn hp
  · exact mul_le_mul_of_nonneg_left hpq hnn
  · rw [List.length_insertionSort]
    calc ((s.length : ℚ) - 1) * q ≤ ((s.length : ℚ) - 1) * 1 :=
          mul_le_mul_of_nonneg_left hq hnn
      _ = (s.length : ℚ) - 1 := by ring

/-! ## Rounding bounds -/

lemma round2_nonneg {x : ℚ} (hx : 0 ≤ x) : 0 ≤ round2 x := by
  unfold round2
  have h1 : 0 ≤ round (x * 100) := by
    rw [round_eq]
    exact Int.floor_nonneg.mpr (by linarith)
  have h2 : (0 : ℚ) ≤ ((round (x * 100) : ℤ) : ℚ) := by exact_mod_cast h1
  linarith

lemma round2_le_100 {x : ℚ} (hx : x ≤ 100) : round2 x ≤ 100 := by
  unfold round2
  have h1 : round (x * 100) < 10001 := by
    rw [round_eq]
    rw [Int.floor_lt]
    push_cast
    linarith
  have h2 : ((round (x * 100) : ℤ) : ℚ) ≤ 10000 := by exact_mod_cast (by omega : round (x * 100) ≤ 10000)
  linarith

/-- C7: for a column with at least one non-missing value the summary
satisfies `lower_fence ≤ q1 ≤ median ≤ q3 ≤ upper_fence`, and the outlier
percentage lies in `[0, 100]`. -/
theorem C7_fence_ordering (col : List (Option ℚ)) (h : 0 < (col.filterMap id).length) :
    ∃ lf q1v med q3v uf op,
      (summarize col).lower_fence = some lf ∧ (summarize col).q1 = some q1v ∧
      (summarize col).median = some med ∧ (summarize col).q3 = some q3v ∧
      (summarize col).upper_fence = some uf ∧ (summarize col).outlier_pct = some op ∧
      lf ≤ q1v ∧ q1v ≤ med ∧ med ≤ q3v ∧ q3v ≤ uf ∧ 0 ≤ op ∧ op ≤ 100 := by
  have hne : ¬ (col.filterMap id).length = 0 := by omega
  have hsne : col.filterMap id ≠ [] := by
    intro hcon
    rw [hcon] at h
    simp at h
  have h12 : quantileLin (col.filterMap id) (1/4) ≤ quantileLin (col.filterMap id) (1/2) :=
    quantileLin_mono _ hsne (by norm_num) (by norm_num) (by norm_num)
  have h23 : quantileLin (col.filterMap id) (1/2) ≤ quantileLin (col.filterMap id) (3/4) :=
    quantileLin_mono _ hsne (by norm_num) (by norm_num) (by norm_num)
  have hNlen : 1 ≤ col.length := by
    have := List.length_filterMap_le id col
    omega
  have hN : (1 : ℚ) ≤ (col.length : ℚ) := by exact_mod_cast hNlen
  have hcle : ∀ lf uf : ℚ, (col.filter (isOutlier lf uf)).length ≤ col.length :=
    fun lf uf => List.length_filter_le _ _
  have hx0 : ∀ lf uf : ℚ,
      0 ≤ ((col.filter (isOutlier lf uf)).length : ℚ) / (col.length : ℚ) * 100 := by
    intro lf uf
    positivity
  have hx1 : ∀ lf uf : ℚ,
      ((col.filter (isOutlier lf uf)).length : ℚ) / (col.length : ℚ) * 100 ≤ 100 := by
    intro lf uf
    have hfr : ((col.filter (isOutlier lf uf)).length : ℚ) / (col.length : ℚ) ≤ 1 := by
      rw [div_le_one (by linarith)]
      exact_mod_cast hcle lf uf
    linarith
  refine ⟨quantileLin (col.filterMap id) (1/4) -
      3/2 * (quantileLin (col.filterMap id) (3/4) - quantileLin (col.filterMap id) (1/4)),
    quantileLin (col.filterMap id) (1/4),
    quantileLin (col.filterMap id) (1/2),
    quantileLin (col.filterMap id) (3/4),
    quantileLin (col.filterMap id) (3/4) +
      3/2 * (quantileLin (col.filterMap id) (3/4) - quantileLin (col.filterMap id) (1/4)),
    round2 (((col.filter (isOutlier
        (quantileLin (col.filterMap id) (1/4) -
          3/2 * (quantileLin (col.filterMap id) (3/4) - quantileLin (col.filterMap id) (1/4)))
        (quantileLin (col.filterMap id) (3/4) +
          3/2 * (quantileLin (col.filterMap id) (3/4) - quantileLin (col.filterMap id) (1/4))))).length : ℚ)
      / (col.length : ℚ) * 100),
    ?_, ?_, ?_, ?_, ?_, ?_, by linarith, h12, h23, by linarith,
    round2_nonneg (hx0 _ _), round2_le_100 (hx1 _ _)⟩ <;>
    simp only [summarize, if_neg hne]

/-- C7 (witness): the spec's concrete scenario `[1, 2, 3, 4, 100]`. -/
theorem C7_fence_ordering_witness :
    0 < (([some 1, some 2, some 3, some 4, some 100] : List (Option ℚ)).filterMap id).length ∧
    ∃ lf q1v med q3v uf op,
      (summarize ([some 1, some 2, some 3, some 4, some 100] : List (Option ℚ))).lower_fence = some lf ∧
      (summarize ([some 1, some 2, some 3, some 4, some 100] : List (Option ℚ))).q1 = some q1v ∧
      (summarize ([some 1, some 2, some 3, some 4, some 100] : List (Option ℚ))).median = some med ∧
      (summarize ([some 1, some 2, some 3, some 4, some 100] : List (Option ℚ))).q3 = some q3v ∧
      (summarize ([some 1, some 2, some 3, some 4, some 100] : List (Option ℚ))).upper_fence = some uf ∧
      (summarize ([some 1, some 2, some 3, some 4, some 100] : List (Option ℚ))).outlier_pct = some op ∧
      lf ≤ q1v ∧ q1v ≤ med ∧ med ≤ q3v ∧ q3v ≤ uf ∧ 0 ≤ op ∧ op ≤ 100 :=
  ⟨by decide,
    C7_fence_ordering [some 1, some 2, some 3, some 4, some 100] (by decide)⟩

end DataProfiling
